import Mathlib

/-!
Shallow embedding of the ueberzug command-execution core
(`ueberzug/action.py` and `ueberzug/ueberzug.py`).

The embedding models:
- PIL images as a mode string plus a list of logical RGBA pixels
  (`AddImageAction.load_image`, action.py lines 117-145);
- the view's placement map as an association list keyed by identifier;
- the debounced redraw scheduler (`DrawAction`, action.py lines 50-87)
  as a process-state record with the class-level flag, a count of
  scheduled-but-unexecuted redraw tasks, and a log of executed repaints,
  each repaint recording the media snapshot it drew;
- the stdin command consumer (`main_commands`, ueberzug.py lines 51-68);
- the SIGUSR1 window re-enumeration (`query_windows`, ueberzug.py 71-103);
- the tmux hook registry update (`setup_tmux_hooks`, ueberzug.py 118-170).
-/

/-- A logical RGBA pixel.  For modes without an alpha band `a` is 255; for
grayscale modes the gray value is stored with `r = g = b`; for palette mode
the palette entry is stored already expanded to its RGBA color. -/
structure Pixel where
  r : Nat
  g : Nat
  b : Nat
  a : Nat
deriving DecidableEq

/-- A PIL image: its mode string (such as "P", "RGB", "RGBA", "LA") and its
pixel data in row order. -/
structure PImage where
  mode : String
  pixels : List Pixel
deriving DecidableEq

/-- Whether the first character list starts the second one. -/
def charsLead : List Char → List Char → Bool
  | [], _ => true
  | _ :: _, [] => false
  | a :: as, b :: bs => a == b && charsLead as bs

/-- Whether the first character list occurs inside the second one. -/
def charsContain (needle : List Char) : List Char → Bool
  | [] => charsLead needle []
  | b :: bs => charsLead needle (b :: bs) || charsContain needle bs

/-- Python's substring test `needle in haystack` on strings; action.py line
132 uses it as `image.mode in 'RGBA'`. -/
def strIn (needle haystack : String) : Bool :=
  charsContain needle.toList haystack.toList

/-- `len(image.getbands())` derived from the mode: palette images have one
band; for the other modes in scope each letter of the mode is one band. -/
def bands (mode : String) : Nat :=
  if mode = "P" then 1 else mode.length

/-- `image.convert('RGBA')` on a palette image (action.py line 130): the
palette is expanded to full color.  Pixels already store the expanded RGBA
color, so only the mode changes. -/
def PImage.convertRGBA (image : PImage) : PImage :=
  { image with mode := "RGBA" }

/-- One channel of pasting value `v` with 8-bit mask `a` over a white
background: `v` where the mask is fully opaque, 255 where fully
transparent, blended in between. -/
def blend (v a : Nat) : Nat :=
  (v * a + 255 * (255 - a)) / 255

/-- `Image.new("RGB", size, (255,255,255))` followed by
`image_rgb.paste(image, mask=image_alpha)` (action.py lines 134-137):
every pixel is composited over white using its alpha as the mask. -/
def compositeOnWhite (image : PImage) : PImage :=
  { mode := "RGB",
    pixels := image.pixels.map fun p => ⟨blend p.r p.a, blend p.g p.a, blend p.b p.a, 255⟩ }

/-- `Image.new("RGB", size, (255,255,255))` followed by
`image_rgb.paste(image)` without a mask (action.py lines 141-143): the
image is converted to RGB and covers the whole canvas, so any alpha band
is dropped without compositing. -/
def flattenOnWhite (image : PImage) : PImage :=
  { mode := "RGB",
    pixels := image.pixels.map fun p => ⟨p.r, p.g, p.b, 255⟩ }

/-- Spec wording: an image "carrying a transparency channel" is one whose
mode has an alpha band. -/
def hasTransparencyChannel (image : PImage) : Bool :=
  ["RGBA", "LA", "PA"].contains image.mode

/-- One placement of the view, `ui.OverlayWindow.Placement(x, y, width,
height, max_width, max_height, path, image, last_modified)` as built at
action.py lines 160-164. -/
structure Placement where
  x : Int
  y : Int
  width : Int
  height : Int
  max_width : Int
  max_height : Int
  path : String
  image : PImage
  last_modified : Nat
deriving DecidableEq

/-- `view.media`: a dict keyed by identifier. -/
abbrev Media := List (String × Placement)

/-- Dict lookup on an association list. -/
def alistGet {β : Type} : List (String × β) → String → Option β
  | [], _ => none
  | (k0, v0) :: rest, k => if k0 = k then some v0 else alistGet rest k

/-- Dict assignment on an association list: replaces the entry if the key
is present, appends it otherwise. -/
def alistSet {β : Type} : List (String × β) → String → β → List (String × β)
  | [], k, v => [(k, v)]
  | (k0, v0) :: rest, k, v =>
    if k0 = k then (k, v) :: rest else (k0, v0) :: alistSet rest k v

/-- Dict deletion on an association list. -/
def alistDel {β : Type} : List (String × β) → String → List (String × β)
  | [], _ => []
  | (k0, v0) :: rest, k =>
    if k0 = k then alistDel rest k else (k0, v0) :: alistDel rest k

/-- A source file on disk: its modification time and its decoded image. -/
structure SrcFile where
  mtime : Nat
  data : PImage
deriving DecidableEq

/-- The file system, mapping paths to source files. -/
abbrev Fs := List (String × SrcFile)

/-- The exception classes caught at the command-consumer boundary,
ueberzug.py line 64: `except (OSError, KeyError, ValueError, TypeError)`. -/
inductive CmdError
  | osError
  | keyError
  | valueError
  | typeError
deriving DecidableEq

/-- `os.path.getmtime(path)` (action.py line 152); raises OSError when the
path does not exist. -/
def getmtime (fs : Fs) (path : String) : Except CmdError Nat :=
  match alistGet fs path with
  | some f => Except.ok f.mtime
  | none => Except.error CmdError.osError

/-- `Image.open(path)` (action.py line 127); raises OSError when the path
does not exist. -/
def imageOpen (fs : Fs) (path : String) : Except CmdError PImage :=
  match alistGet fs path with
  | some f => Except.ok f.data
  | none => Except.error CmdError.osError

/-- The daemon-side mutable state reached by one action's `apply`:
the view's media dict, the class-level `DrawAction.__redraw_scheduled`
flag, the number of scheduled-but-unexecuted redraw tasks, and the log of
executed `windows.draw()` calls, each recording the media it repainted. -/
structure PState where
  media : Media
  redraw_scheduled : Bool
  pending : Nat
  draws : List Media
deriving DecidableEq

/-- A fresh process state with the given media: flag clear, no task
scheduled, nothing drawn yet. -/
def initState (m : Media) : PState :=
  { media := m, redraw_scheduled := false, pending := 0, draws := [] }

/-- `DrawAction.apply` (action.py lines 79-87) together with
`schedule_redraw` (lines 56-77): if `draw` is clear nothing happens; a
synchronous draw repaints immediately; otherwise, when the class-level
flag is clear, it is set and one deferred redraw task is scheduled, and
when the flag is already set the request is dropped. -/
def DrawAction.apply (draw synchronously_draw : Bool) (st : PState) : PState :=
  if draw then
    if synchronously_draw then
      { st with draws := st.draws ++ [st.media] }
    else if st.redraw_scheduled then
      st
    else
      { st with redraw_scheduled := true, pending := st.pending + 1 }
  else
    st

/-- Executing one scheduled redraw task (the inner `redraw` coroutine of
`schedule_redraw`, action.py lines 73-75): repaint every window against
the media as it is now, then clear the flag. -/
def runRedrawTask (st : PState) : PState :=
  { st with
    draws := st.draws ++ [st.media],
    redraw_scheduled := false,
    pending := st.pending - 1 }

/-- Run `n` scheduled redraw tasks in order. -/
def runPendingTasks : Nat → PState → PState
  | 0, st => st
  | n + 1, st => runPendingTasks n (runRedrawTask st)

/-- Drain the current scheduling tick: every scheduled redraw task runs. -/
def drainTick (st : PState) : PState :=
  runPendingTasks st.pending st

/-- The `add` action, action.py lines 97-166. -/
structure AddImageAction where
  draw : Bool
  synchronously_draw : Bool
  identifier : String
  x : Int
  y : Int
  path : String
  width : Int
  max_width : Int
  height : Int
  max_height : Int
deriving DecidableEq

/-- The placement stored by `AddImageAction.apply` (action.py 160-164). -/
def mkPlacement (a : AddImageAction) (image : PImage) (last_modified : Nat) : Placement :=
  { x := a.x, y := a.y, width := a.width, height := a.height,
    max_width := a.max_width, max_height := a.max_height,
    path := a.path, image := image, last_modified := last_modified }

/-- `AddImageAction.load_image` (action.py lines 117-145): palette images
are first expanded to RGBA; then, when the mode is a substring of `'RGBA'`
and the image has four bands, it is composited over white using its alpha
band as the mask; any other image is pasted over white without a mask,
which drops remaining bands without compositing. -/
def AddImageAction.load_image (image : PImage) : PImage :=
  let image := if image.mode = "P" then image.convertRGBA else image
  if strIn image.mode ("RGBA") && bands image.mode == 4 then
    compositeOnWhite image
  else
    flattenOnWhite image

/-- The body of the `try` block of `AddImageAction.apply` (action.py lines
148-164): read the source's modification time, reload the image when no
placement is cached for the identifier, or the stored time is strictly
below the current one, or the path changed, and store the resulting
placement under the identifier.  Returns the new media together with
whether `load_image` ran; errors are the raised exceptions. -/
def AddImageAction.body (fs : Fs) (a : AddImageAction) (media : Media) :
    Except CmdError (Media × Bool) :=
  match getmtime fs a.path with
  | Except.error e => Except.error e
  | Except.ok current =>
    match alistGet media a.identifier with
    | none =>
      match imageOpen fs a.path with
      | Except.error e => Except.error e
      | Except.ok raw =>
        Except.ok (alistSet media a.identifier
          (mkPlacement a (AddImageAction.load_image raw) current), true)
    | some op =>
      if op.last_modified < current ∨ ¬ a.path = op.path then
        match imageOpen fs a.path with
        | Except.error e => Except.error e
        | Except.ok raw =>
          Except.ok (alistSet media a.identifier
            (mkPlacement a (AddImageAction.load_image raw) current), true)
      else
        Except.ok (alistSet media a.identifier
          (mkPlacement a op.image op.last_modified), false)

/-- Result of one `apply`: the state afterwards, the exception that
propagates to the caller if any, and whether `load_image` ran. -/
structure ApplyResult where
  state : PState
  error : Option CmdError
  loaded : Bool
deriving DecidableEq

/-- `AddImageAction.apply` (action.py lines 147-166): run the body, and in
a `finally` block run the draw policy of the superclass; a body exception
propagates after the draw policy ran. -/
def AddImageAction.apply (fs : Fs) (a : AddImageAction) (st : PState) : ApplyResult :=
  match AddImageAction.body fs a st.media with
  | Except.ok (m, loaded) =>
    { state := DrawAction.apply a.draw a.synchronously_draw { st with media := m },
      error := none, loaded := loaded }
  | Except.error e =>
    { state := DrawAction.apply a.draw a.synchronously_draw st,
      error := some e, loaded := false }

/-- The `remove` action, action.py lines 169-182. -/
structure RemoveImageAction where
  draw : Bool
  synchronously_draw : Bool
  identifier : String
deriving DecidableEq

/-- `RemoveImageAction.apply` (action.py lines 177-182): delete the entry
when the identifier is present, then run the draw policy in `finally`.
The body cannot raise, so no error component is needed. -/
def RemoveImageAction.apply (a : RemoveImageAction) (st : PState) : PState :=
  let m :=
    if (alistGet st.media a.identifier).isSome
    then alistDel st.media a.identifier
    else st.media
  DrawAction.apply a.draw a.synchronously_draw { st with media := m }

/-- Apply a list of `add` actions in order, keeping the reached states. -/
def applyAdds (fs : Fs) (acts : List AddImageAction) (st : PState) : PState :=
  acts.foldl (fun s a => (AddImageAction.apply fs a s).state) st

/-- A decoded command: `action.Command(data['action']).action_class(**data)`
(ueberzug.py lines 61-62) yields one of the two concrete actions. -/
inductive ActionU
  | add (a : AddImageAction)
  | remove (a : RemoveImageAction)
deriving DecidableEq

/-- Processing of one nonempty input line inside the inner `try` block of
`main_commands` (ueberzug.py lines 59-66): decode the line and apply the
resulting action; the second component is the exception caught by the
surrounding handler, if any. -/
def execLine (fs : Fs) (decode : String → Except CmdError ActionU)
    (line : String) (st : PState) : PState × Option CmdError :=
  match decode line with
  | Except.error e => (st, some e)
  | Except.ok (ActionU.add a) =>
    let r := AddImageAction.apply fs a st
    (r.state, r.error)
  | Except.ok (ActionU.remove a) => (RemoveImageAction.apply a st, none)

/-- `main_commands` (ueberzug.py lines 51-68) on the list of lines the
reader yields: an empty line breaks the loop; otherwise the line is
processed and any caught exception becomes an error report on the output
channel; the `finally` block schedules the shutdown routine, recorded by
the final boolean. -/
def main_commands (fs : Fs) (decode : String → Except CmdError ActionU) :
    List String → PState → PState × (List CmdError × Bool)
  | [], st => (st, ([], true))
  | line :: rest, st =>
    if line = "" then (st, ([], true))
    else
      let r := execLine fs decode line st
      let k := main_commands fs decode rest r.1
      (k.1, (r.2.toList ++ k.2.1, k.2.2))

/-- `query_windows` (ueberzug.py lines 71-103) on the id sets: the
symmetric difference of the enumerated parent window ids against the
tracked ones yields the added and the removed ids; windows are created
for the added ones and destroyed for the removed ones, and the windows
are redrawn exactly when one of the two sets is nonempty.  Returns the
tracked id set afterwards and whether a redraw was requested. -/
def query_windows (parentIds current : Finset ℕ) : Finset ℕ × Bool :=
  let diff := (parentIds \ current) ∪ (current \ parentIds)
  let added := diff ∩ parentIds
  let removed := diff ∩ current
  let draw := !decide (added = ∅) || !decide (removed = ∅)
  let ws := if ¬ added = ∅ then current ∪ added else current
  let ws2 := if ¬ removed = ∅ then ws \ removed else ws
  (ws2, draw)

/-- The tmux event kinds watched by `setup_tmux_hooks` (ueberzug.py lines
128-132). -/
def events : List String :=
  ["client-session-changed", "session-window-changed", "pane-mode-changed"]

/-- The cross-process hook registry: the pid set recorded in the lock
file, and for each tmux event kind the pid set signalled by the hook
command registered for it (`kill -USR1 <pids>`), or `none` when no hook
is registered for that event kind. -/
structure HookState where
  fileContent : Finset String
  hooks : String → Option (Finset String)

/-- `tmux_util.register_hook(event, command)`: the command signalling the
given pid set becomes the hook of the event kind. -/
def register_hook (e : String) (cmd : Finset String)
    (h : String → Option (Finset String)) : String → Option (Finset String) :=
  fun x => if x = e then some cmd else h x

/-- `tmux_util.unregister_hook(event)`. -/
def unregister_hook (e : String)
    (h : String → Option (Finset String)) : String → Option (Finset String) :=
  fun x => if x = e then none else h x

/-- `update_hooks` (ueberzug.py lines 143-156): write the pid set back to
the registry file, then for every watched event kind register the command
signalling that set when it is nonempty, and unregister the hook when it
is empty.  The joined pid string is nonempty exactly when the set is. -/
def update_hooks (pids : Finset String) (st : HookState) : HookState :=
  { fileContent := pids,
    hooks := events.foldl
      (fun h e => if pids = ∅ then unregister_hook e h else register_hook e pids h)
      st.hooks }

/-- `remove_hooks` (ueberzug.py lines 158-163), the shutdown routine: read
the pid set from the registry file, discard the own pid, and run
`update_hooks` on the result. -/
def remove_hooks (own_pid : String) (st : HookState) : HookState :=
  update_hooks (st.fileContent.erase own_pid) st

/-! Concrete fixtures used by witnesses and counterexamples. -/

/-- An opaque RGB test image. -/
def imgDisk : PImage := { mode := "RGB", pixels := [⟨1, 2, 3, 255⟩] }

/-- A distinct image standing for an earlier decode held by the cache. -/
def imgCached : PImage := { mode := "RGB", pixels := [⟨9, 9, 9, 255⟩] }

/-- A grayscale-with-alpha image whose only pixel is fully transparent. -/
def laImg : PImage := { mode := "LA", pixels := [⟨10, 10, 10, 0⟩] }

/-- A palette image whose only pixel is fully transparent. -/
def pImg : PImage := { mode := "P", pixels := [⟨7, 8, 9, 0⟩] }

/-- A file system with one image file at path `p`, modified at time 5. -/
def fsOne : Fs := [("p", { mtime := 5, data := imgDisk })]

/-- An asynchronous-draw `add` action for identifier `i` and path `p`. -/
def addActA : AddImageAction :=
  { draw := true, synchronously_draw := false, identifier := "i",
    x := 1, y := 2, path := "p",
    width := 0, max_width := 0, height := 0, max_height := 0 }

/-- The cached placement for identifier `i`, recorded at time 5. -/
def plHit : Placement := mkPlacement addActA imgCached 5

/-- The cached placement for identifier `i`, recorded at time 10: newer
than the file on disk. -/
def plNewer : Placement := mkPlacement addActA imgCached 10

/-- A state holding the time-5 cached placement under `i`. -/
def stHit : PState := initState [("i", plHit)]

/-- A state holding the time-10 cached placement under `i`. -/
def stNewer : PState := initState [("i", plNewer)]

/-- A `remove` action for an identifier that is never present. -/
def rmActA : RemoveImageAction :=
  { draw := true, synchronously_draw := false, identifier := "z" }

/-- The empty process state. -/
def stEmpty : PState := initState []

/-- An `add` action whose path does not exist in `fsOne`. -/
def addActMissing : AddImageAction :=
  { draw := true, synchronously_draw := false, identifier := "i",
    x := 0, y := 0, path := "q",
    width := 0, max_width := 0, height := 0, max_height := 0 }

/-- A decoder that fails on every line with a value error. -/
def decodeFail : String → Except CmdError ActionU :=
  fun _ => Except.error CmdError.valueError

/-- A hook registry holding pids 1 and 2 with no hooks registered yet. -/
def hookStA : HookState :=
  { fileContent := {"1", "2"}, hooks := fun _ => none }

/-! Helper lemmas about the association-list dictionary. -/

theorem alistGet_set_self {β : Type} (m : List (String × β)) (k : String) (v : β) :
    alistGet (alistSet m k v) k = some v := by
  induction m with
  | nil => simp [alistSet, alistGet]
  | cons hd tl ih =>
    obtain ⟨k0, v0⟩ := hd
    by_cases h : k0 = k
    · subst h; simp [alistSet, alistGet]
    · simp [alistSet, alistGet, h, ih]

theorem alistGet_del_self {β : Type} (m : List (String × β)) (k : String) :
    alistGet (alistDel m k) k = none := by
  induction m with
  | nil => simp [alistDel, alistGet]
  | cons hd tl ih =>
    obtain ⟨k0, v0⟩ := hd
    by_cases h : k0 = k
    · simp [alistDel, h, ih]
    · simp [alistDel, alistGet, h, ih]

theorem alistGet_del_ne {β : Type} (m : List (String × β)) (k k' : String)
    (h : ¬ k = k') : alistGet (alistDel m k) k' = alistGet m k' := by
  induction m with
  | nil => simp [alistDel]
  | cons hd tl ih =>
    obtain ⟨k0, v0⟩ := hd
    by_cases h0 : k0 = k
    · subst h0; simp [alistDel, alistGet, h, ih]
    · simp only [alistDel, if_neg h0]
      by_cases h1 : k0 = k'
      · simp [alistGet, h1]
      · simp [alistGet, h1, ih]

/-! Helper lemmas about the draw policy. -/

theorem DrawAction.apply_media (d s : Bool) (st : PState) :
    (DrawAction.apply d s st).media = st.media := by
  simp only [DrawAction.apply]
  split <;> [skip; rfl]
  split <;> [rfl; skip]
  split <;> rfl

theorem DrawAction.apply_async_clear (st : PState) (h : st.redraw_scheduled = false) :
    DrawAction.apply true false st =
      { st with redraw_scheduled := true, pending := st.pending + 1 } := by
  simp [DrawAction.apply, h]

theorem DrawAction.apply_async_set (st : PState) (h : st.redraw_scheduled = true) :
    DrawAction.apply true false st = st := by
  simp [DrawAction.apply, h]

theorem AddImageAction.apply_state_shape (fs : Fs) (a : AddImageAction) (st : PState) :
    ∃ m, (AddImageAction.apply fs a st).state =
      DrawAction.apply a.draw a.synchronously_draw { st with media := m } := by
  simp only [AddImageAction.apply]
  cases h : AddImageAction.body fs a st.media with
  | ok p => exact ⟨p.1, rfl⟩
  | error e => exact ⟨st.media, rfl⟩

/-- C7: Applying `RemoveImageAction` for an absent identifier leaves the
media untouched; the entry for the identifier is gone afterwards and every
other entry is preserved; no error exists in the embedding of the body
(the function is total with no error component); and the draw policy runs
in either case: the scheduler flag and the pending count change exactly as
the draw policy dictates, a synchronous draw repaints immediately, and
`draw = false` draws nothing. -/
theorem C7_remove_noop (a : RemoveImageAction) (st : PState) :
    ((alistGet st.media a.identifier = none →
        (RemoveImageAction.apply a st).media = st.media)
  ∧ alistGet (RemoveImageAction.apply a st).media a.identifier = none
  ∧ (∀ k, ¬ k = a.identifier →
        alistGet (RemoveImageAction.apply a st).media k = alistGet st.media k)
  ∧ (RemoveImageAction.apply a st).redraw_scheduled =
      (DrawAction.apply a.draw a.synchronously_draw st).redraw_scheduled
  ∧ (RemoveImageAction.apply a st).pending =
      (DrawAction.apply a.draw a.synchronously_draw st).pending
  ∧ (a.draw = true → a.synchronously_draw = true →
        (RemoveImageAction.apply a st).draws =
          st.draws ++ [(RemoveImageAction.apply a st).media])
  ∧ (a.draw = false → (RemoveImageAction.apply a st).draws = st.draws)) := by
  have hmedia : ∀ m : Media,
      (DrawAction.apply a.draw a.synchronously_draw { st with media := m }).media = m := by
    intro m
    exact DrawAction.apply_media a.draw a.synchronously_draw { st with media := m }
  have hflags : ∀ m : Media,
      (DrawAction.apply a.draw a.synchronously_draw { st with media := m }).redraw_scheduled =
        (DrawAction.apply a.draw a.synchronously_draw st).redraw_scheduled ∧
      (DrawAction.apply a.draw a.synchronously_draw { st with media := m }).pending =
        (DrawAction.apply a.draw a.synchronously_draw st).pending := by
    intro m
    simp only [DrawAction.apply]
    split
    · split
      · exact ⟨rfl, rfl⟩
      · split <;> exact ⟨rfl, rfl⟩
    · exact ⟨rfl, rfl⟩
  refine ⟨?_, ?_, ?_, ?_, ?_, ?_, ?_⟩
  · intro h
    simp only [RemoveImageAction.apply, h, Option.isSome_none, Bool.false_eq_true, if_false]
    exact hmedia st.media
  · simp only [RemoveImageAction.apply]
    by_cases h : (alistGet st.media a.identifier).isSome
    · rw [if_pos h, hmedia]
      exact alistGet_del_self st.media a.identifier
    · rw [if_neg h, hmedia]
      simpa using h
  · intro k hk
    simp only [RemoveImageAction.apply]
    by_cases h : (alistGet st.media a.identifier).isSome
    · rw [if_pos h, hmedia]
      exact alistGet_del_ne st.media a.identifier k fun hh => hk hh.symm
    · rw [if_neg h, hmedia]
  · exact (hflags _).1
  · exact (hflags _).2
  · intro hd hs
    simp only [RemoveImageAction.apply, DrawAction.apply, hd, hs, if_true]
  · intro hd
    simp only [RemoveImageAction.apply, DrawAction.apply, hd, Bool.false_eq_true, if_false]

/-- C7 witness: removing the absent identifier `z` from the empty state
leaves the media unchanged. -/
theorem C7_witness :
    alistGet stEmpty.media rmActA.identifier = none
  ∧ (RemoveImageAction.apply rmActA stEmpty).media = stEmpty.media :=
  ⟨by decide, (C7_remove_noop rmActA stEmpty).1 (by decide)⟩

/-! Reductions of the `add` body under a readable source file. -/

theorem AddImageAction.body_hit (fs : Fs) (a : AddImageAction) (media : Media)
    (f : SrcFile) (op : Placement)
    (hf : alistGet fs a.path = some f)
    (hop : alistGet media a.identifier = some op)
    (hcond : ¬ (op.last_modified < f.mtime ∨ ¬ a.path = op.path)) :
    AddImageAction.body fs a media =
      Except.ok (alistSet media a.identifier
        (mkPlacement a op.image op.last_modified), false) := by
  simp [AddImageAction.body, getmtime, imageOpen, hf, hop, hcond]

theorem AddImageAction.body_load_some (fs : Fs) (a : AddImageAction) (media : Media)
    (f : SrcFile) (op : Placement)
    (hf : alistGet fs a.path = some f)
    (hop : alistGet media a.identifier = some op)
    (hcond : op.last_modified < f.mtime ∨ ¬ a.path = op.path) :
    AddImageAction.body fs a media =
      Except.ok (alistSet media a.identifier
        (mkPlacement a (AddImageAction.load_image f.data) f.mtime), true) := by
  simp [AddImageAction.body, getmtime, imageOpen, hf, hop, hcond]

theorem AddImageAction.body_load_none (fs : Fs) (a : AddImageAction) (media : Media)
    (f : SrcFile)
    (hf : alistGet fs a.path = some f)
    (hop : alistGet media a.identifier = none) :
    AddImageAction.body fs a media =
      Except.ok (alistSet media a.identifier
        (mkPlacement a (AddImageAction.load_image f.data) f.mtime), true) := by
  simp [AddImageAction.body, getmtime, imageOpen, hf, hop]

/-- C2: For an `add` action on a readable source file: when a placement is
cached under the identifier with the same source path and an unchanged
modification time, the image is not re-decoded and the cached image handle
is reused in the stored placement; when the path differs, or the current
modification time is strictly greater than the stored one, or no placement
exists for the identifier, the image is (re)loaded and the resulting
placement replaces or inserts the entry under the identifier. -/
theorem C2_placement_cache (fs : Fs) (a : AddImageAction) (st : PState) (f : SrcFile)
    (hf : alistGet fs a.path = some f) :
    (∀ op, alistGet st.media a.identifier = some op → a.path = op.path →
        f.mtime = op.last_modified →
          (AddImageAction.apply fs a st).loaded = false
        ∧ alistGet (AddImageAction.apply fs a st).state.media a.identifier =
            some (mkPlacement a op.image op.last_modified))
  ∧ (∀ op, alistGet st.media a.identifier = some op →
        (¬ a.path = op.path ∨ op.last_modified < f.mtime) →
          (AddImageAction.apply fs a st).loaded = true
        ∧ alistGet (AddImageAction.apply fs a st).state.media a.identifier =
            some (mkPlacement a (AddImageAction.load_image f.data) f.mtime))
  ∧ (alistGet st.media a.identifier = none →
          (AddImageAction.apply fs a st).loaded = true
        ∧ alistGet (AddImageAction.apply fs a st).state.media a.identifier =
            some (mkPlacement a (AddImageAction.load_image f.data) f.mtime)) := by
  refine ⟨?_, ?_, ?_⟩
  · intro op hop hpath hmt
    have hcond : ¬ (op.last_modified < f.mtime ∨ ¬ a.path = op.path) := by
      rintro (hlt | hp)
      · rw [hmt] at hlt
        exact lt_irrefl _ hlt
      · exact hp hpath
    have hbody := AddImageAction.body_hit fs a st.media f op hf hop hcond
    constructor <;>
      simp [AddImageAction.apply, hbody, DrawAction.apply_media, alistGet_set_self]
  · intro op hop hc
    have hbody := AddImageAction.body_load_some fs a st.media f op hf hop (Or.symm hc)
    constructor <;>
      simp [AddImageAction.apply, hbody, DrawAction.apply_media, alistGet_set_self]
  · intro hop
    have hbody := AddImageAction.body_load_none fs a st.media f hf hop
    constructor <;>
      simp [AddImageAction.apply, hbody, DrawAction.apply_media, alistGet_set_self]

/-- C2 witness: re-adding identifier `i` from the unchanged path `p` with
the unchanged modification time 5 does not re-decode and reuses the cached
image. -/
theorem C2_witness :
    alistGet fsOne addActA.path = some { mtime := 5, data := imgDisk }
  ∧ alistGet stHit.media addActA.identifier = some plHit
  ∧ addActA.path = plHit.path
  ∧ ({ mtime := 5, data := imgDisk } : SrcFile).mtime = plHit.last_modified
  ∧ ((AddImageAction.apply fsOne addActA stHit).loaded = false
    ∧ alistGet (AddImageAction.apply fsOne addActA stHit).state.media addActA.identifier =
        some (mkPlacement addActA plHit.image plHit.last_modified)) :=
  ⟨by decide, by decide, by decide, by decide,
   (C2_placement_cache fsOne addActA stHit { mtime := 5, data := imgDisk }
     (by decide)).1 plHit (by decide) (by decide) (by decide)⟩

/-- C4 counterexample: the file at path `p` currently has modification
time 5, the cached placement for identifier `i` records time 10 with the
same path, and applying the `add` action does not reload the image: the
claim that a backward-moving modification time incurs a reload is false on
the code. -/
theorem C4_counterexample :
    alistGet fsOne addActA.path = some { mtime := 5, data := imgDisk }
  ∧ alistGet stNewer.media addActA.identifier = some plNewer
  ∧ addActA.path = plNewer.path
  ∧ (5 : Nat) < plNewer.last_modified
  ∧ ¬ (AddImageAction.apply fsOne addActA stNewer).loaded = true := by decide

/-- C4 amended: for an `add` action on an existing placement with the same
identifier and the same source path whose source's current modification
time is strictly less than the recorded one, the image is NOT reloaded:
the cached image handle is reused and the recorded modification time is
kept, so the placement is treated as unchanged apart from the updated
geometry. -/
theorem C4_backward_mtime_cached (fs : Fs) (a : AddImageAction) (st : PState)
    (f : SrcFile) (op : Placement)
    (hf : alistGet fs a.path = some f)
    (hop : alistGet st.media a.identifier = some op)
    (hpath : a.path = op.path)
    (hlt : f.mtime < op.last_modified) :
    (AddImageAction.apply fs a st).loaded = false
  ∧ alistGet (AddImageAction.apply fs a st).state.media a.identifier =
      some (mkPlacement a op.image op.last_modified) := by
  have hcond : ¬ (op.last_modified < f.mtime ∨ ¬ a.path = op.path) := by
    rintro (h | h)
    · exact lt_irrefl _ (h.trans hlt)
    · exact h hpath
  have hbody := AddImageAction.body_hit fs a st.media f op hf hop hcond
  constructor <;>
    simp [AddImageAction.apply, hbody, DrawAction.apply_media, alistGet_set_self]

/-- C4 witness: the time-10 cached placement is kept unchanged when the
file's current modification time is 5. -/
theorem C4_witness :
    alistGet fsOne addActA.path = some { mtime := 5, data := imgDisk }
  ∧ alistGet stNewer.media addActA.identifier = some plNewer
  ∧ addActA.path = plNewer.path
  ∧ ({ mtime := 5, data := imgDisk } : SrcFile).mtime < plNewer.last_modified
  ∧ ((AddImageAction.apply fsOne addActA stNewer).loaded = false
    ∧ alistGet (AddImageAction.apply fsOne addActA stNewer).state.media addActA.identifier =
        some (mkPlacement addActA plNewer.image plNewer.last_modified)) :=
  ⟨by decide, by decide, by decide, by decide,
   C4_backward_mtime_cached fsOne addActA stNewer { mtime := 5, data := imgDisk }
     plNewer (by decide) (by decide) (by decide) (by decide)⟩

/-- C10: when the body of `AddImageAction.apply` raises (for example the
source path does not exist), the error propagates to the caller, the
view's media is left unchanged (the mutation is atomic with respect to
errors), and the draw policy of the superclass still ran in the `finally`
block on the unchanged state. -/
theorem C10_apply_error_atomic (fs : Fs) (a : AddImageAction) (st : PState) (e : CmdError)
    (h : AddImageAction.body fs a st.media = Except.error e) :
    (AddImageAction.apply fs a st).error = some e
  ∧ (AddImageAction.apply fs a st).state.media = st.media
  ∧ (AddImageAction.apply fs a st).state =
      DrawAction.apply a.draw a.synchronously_draw st := by
  refine ⟨?_, ?_, ?_⟩ <;> simp [AddImageAction.apply, h, DrawAction.apply_media]

/-- C10 witness: adding from the missing path `q` fails with OSError,
leaves the media unchanged and still runs the draw policy. -/
theorem C10_witness :
    AddImageAction.body fsOne addActMissing stEmpty.media = Except.error CmdError.osError
  ∧ ((AddImageAction.apply fsOne addActMissing stEmpty).error = some CmdError.osError
    ∧ (AddImageAction.apply fsOne addActMissing stEmpty).state.media = stEmpty.media
    ∧ (AddImageAction.apply fsOne addActMissing stEmpty).state =
        DrawAction.apply addActMissing.draw addActMissing.synchronously_draw stEmpty) :=
  ⟨rfl,
   C10_apply_error_atomic fsOne addActMissing stEmpty CmdError.osError rfl⟩

/-! Helper lemmas about the asynchronous redraw scheduling. -/

theorem applyAdds_nil (fs : Fs) (st : PState) : applyAdds fs [] st = st := rfl

theorem applyAdds_cons (fs : Fs) (a : AddImageAction) (rest : List AddImageAction)
    (st : PState) :
    applyAdds fs (a :: rest) st = applyAdds fs rest (AddImageAction.apply fs a st).state := rfl

theorem addApply_async_flag_clear (fs : Fs) (a : AddImageAction) (st : PState)
    (hd : a.draw = true) (hs : a.synchronously_draw = false)
    (hf : st.redraw_scheduled = false) :
    (AddImageAction.apply fs a st).state.redraw_scheduled = true
  ∧ (AddImageAction.apply fs a st).state.pending = st.pending + 1
  ∧ (AddImageAction.apply fs a st).state.draws = st.draws := by
  obtain ⟨m, hm⟩ := AddImageAction.apply_state_shape fs a st
  rw [hm, hd, hs, DrawAction.apply_async_clear _ (by exact hf)]
  exact ⟨rfl, rfl, rfl⟩

theorem addApply_async_flag_set (fs : Fs) (a : AddImageAction) (st : PState)
    (hd : a.draw = true) (hs : a.synchronously_draw = false)
    (hf : st.redraw_scheduled = true) :
    (AddImageAction.apply fs a st).state.redraw_scheduled = true
  ∧ (AddImageAction.apply fs a st).state.pending = st.pending
  ∧ (AddImageAction.apply fs a st).state.draws = st.draws := by
  obtain ⟨m, hm⟩ := AddImageAction.apply_state_shape fs a st
  rw [hm, hd, hs, DrawAction.apply_async_set _ (by exact hf)]
  exact ⟨hf, rfl, rfl⟩

theorem applyAdds_scheduled_inv (fs : Fs) (acts : List AddImageAction) (st : PState)
    (hdraw : ∀ a ∈ acts, a.draw = true ∧ a.synchronously_draw = false)
    (hflag : st.redraw_scheduled = true) :
    (applyAdds fs acts st).redraw_scheduled = true
  ∧ (applyAdds fs acts st).pending = st.pending
  ∧ (applyAdds fs acts st).draws = st.draws := by
  induction acts generalizing st with
  | nil => exact ⟨hflag, rfl, rfl⟩
  | cons a rest ih =>
    have ha := hdraw a (List.mem_cons_self a rest)
    have hstep := addApply_async_flag_set fs a st ha.1 ha.2 hflag
    rw [applyAdds_cons]
    have hrest := ih (AddImageAction.apply fs a st).state
      (fun x hx => hdraw x (List.mem_cons_of_mem a hx)) hstep.1
    exact ⟨hrest.1, by rw [hrest.2.1, hstep.2.1], by rw [hrest.2.2, hstep.2.2]⟩

/-- C1: For a nonempty sequence of applied `add` actions with `draw = true`
and `synchronously_draw = false` starting in a state with a clear flag and
no scheduled task, at most one redraw task is outstanding after any number
of applied actions; after all of them exactly one task is scheduled, the
flag is set and nothing was repainted yet; and draining the tick executes
exactly one repaint, against the media as it is after all the mutations,
and clears the flag and the task count. -/
theorem C1_debounced_redraw (fs : Fs) (acts : List AddImageAction) (m0 : Media)
    (hne : ¬ acts = [])
    (hdraw : ∀ a ∈ acts, a.draw = true ∧ a.synchronously_draw = false) :
    (∀ n, (applyAdds fs (acts.take n) (initState m0)).pending ≤ 1)
  ∧ (applyAdds fs acts (initState m0)).pending = 1
  ∧ (applyAdds fs acts (initState m0)).redraw_scheduled = true
  ∧ (applyAdds fs acts (initState m0)).draws = []
  ∧ drainTick (applyAdds fs acts (initState m0)) =
      { applyAdds fs acts (initState m0) with
        draws := [(applyAdds fs acts (initState m0)).media],
        redraw_scheduled := false, pending := 0 } := by
  obtain ⟨a, rest, rfl⟩ : ∃ a rest, acts = a :: rest := by
    cases acts with
    | nil => exact absurd rfl hne
    | cons a rest => exact ⟨a, rest, rfl⟩
  have ha := hdraw a (List.mem_cons_self a rest)
  have hrestdraw : ∀ x ∈ rest, x.draw = true ∧ x.synchronously_draw = false :=
    fun x hx => hdraw x (List.mem_cons_of_mem a hx)
  have hstep := addApply_async_flag_clear fs a (initState m0) ha.1 ha.2 rfl
  have hful := applyAdds_scheduled_inv fs rest
    (AddImageAction.apply fs a (initState m0)).state hrestdraw hstep.1
  have hp : (applyAdds fs (a :: rest) (initState m0)).pending = 1 := by
    rw [applyAdds_cons, hful.2.1, hstep.2.1]; rfl
  have hg : (applyAdds fs (a :: rest) (initState m0)).redraw_scheduled = true := by
    rw [applyAdds_cons]; exact hful.1
  have hd : (applyAdds fs (a :: rest) (initState m0)).draws = [] := by
    rw [applyAdds_cons, hful.2.2, hstep.2.2]; rfl
  refine ⟨?_, hp, hg, hd, ?_⟩
  · intro n
    cases n with
    | zero => simp [applyAdds_nil, initState]
    | succ k =>
      rw [List.take_succ_cons, applyAdds_cons]
      have hk := applyAdds_scheduled_inv fs (rest.take k)
        (AddImageAction.apply fs a (initState m0)).state
        (fun x hx => hrestdraw x (List.take_subset k rest hx)) hstep.1
      rw [hk.2.1, hstep.2.1]
      simp [initState]
  · show runPendingTasks (applyAdds fs (a :: rest) (initState m0)).pending _ = _
    rw [hp]
    show runRedrawTask (applyAdds fs (a :: rest) (initState m0)) = _
    rw [runRedrawTask, hd, hp]
    simp

/-- C1 witness: a single asynchronous `add` schedules exactly one redraw
task, and draining the tick repaints once against the mutated media. -/
theorem C1_witness :
    ¬ ([addActA] : List AddImageAction) = []
  ∧ (∀ a ∈ ([addActA] : List AddImageAction), a.draw = true ∧ a.synchronously_draw = false)
  ∧ ((∀ n, (applyAdds fsOne (([addActA] : List AddImageAction).take n) (initState [])).pending ≤ 1)
    ∧ (applyAdds fsOne [addActA] (initState [])).pending = 1
    ∧ (applyAdds fsOne [addActA] (initState [])).redraw_scheduled = true
    ∧ (applyAdds fsOne [addActA] (initState [])).draws = []
    ∧ drainTick (applyAdds fsOne [addActA] (initState [])) =
        { applyAdds fsOne [addActA] (initState []) with
          draws := [(applyAdds fsOne [addActA] (initState [])).media],
          redraw_scheduled := false, pending := 0 }) :=
  ⟨by decide, by decide, C1_debounced_redraw fsOne [addActA] [] (by decide) (by decide)⟩

/-! Helper lemma: the command consumer always schedules the shutdown
routine in its `finally` block, however it ends. -/

theorem main_commands_shutdown (fs : Fs) (decode : String → Except CmdError ActionU)
    (lines : List String) (st : PState) :
    (main_commands fs decode lines st).2.2 = true := by
  induction lines generalizing st with
  | nil => rfl
  | cons l ls ih =>
    by_cases h : l = ""
    · simp [main_commands, h]
    · simp [main_commands, h, ih]

/-- C5: when the command consumer reads an empty line, it terminates and
shutdown is triggered, exactly as when the input stream is closed: the run
on a stream with an empty line equals the run on the stream truncated
before the empty line (which ends by stream closure), and the shutdown
routine is scheduled. -/
theorem C5_empty_line_shutdown (fs : Fs) (decode : String → Except CmdError ActionU)
    (pre post : List String) (st : PState) :
    main_commands fs decode (pre ++ "" :: post) st = main_commands fs decode pre st
  ∧ (main_commands fs decode (pre ++ "" :: post) st).2.2 = true := by
  constructor
  · induction pre generalizing st with
    | nil => simp [main_commands]
    | cons l ls ih =>
      by_cases h : l = ""
      · simp [main_commands, h]
      · simp [main_commands, h, ih]
  · exact main_commands_shutdown fs decode (pre ++ "" :: post) st

/-- C3: a line whose processing fails with one of the caught exception
classes contributes exactly one error report on the output channel, and
the consumer continues with the remaining lines exactly as it would have
from the state the failing line left behind; the run still ends with the
shutdown scheduled by the `finally` block, never terminated by the bad
command. -/
theorem C3_errors_contained (fs : Fs) (decode : String → Except CmdError ActionU)
    (pre post : List String) (st : PState) (bad : String) (e : CmdError)
    (hpre : ∀ l ∈ pre, ¬ l = "")
    (hbad : ¬ bad = "")
    (he : (execLine fs decode bad (main_commands fs decode pre st).1).2 = some e) :
    main_commands fs decode (pre ++ bad :: post) st =
      ((main_commands fs decode post
          (execLine fs decode bad (main_commands fs decode pre st).1).1).1,
       ((main_commands fs decode pre st).2.1
         ++ e :: (main_commands fs decode post
              (execLine fs decode bad (main_commands fs decode pre st).1).1).2.1,
        true)) := by
  induction pre generalizing st with
  | nil =>
    simp only [main_commands] at he
    simp only [List.nil_append, main_commands, if_neg hbad]
    rw [he]
    simp [main_commands_shutdown fs decode post]
  | cons l ls ih =>
    have hl : ¬ l = "" := hpre l (List.mem_cons_self l ls)
    have hpre2 : ∀ x ∈ ls, ¬ x = "" := fun x hx => hpre x (List.mem_cons_of_mem l hx)
    have he2 : (execLine fs decode bad
        (main_commands fs decode ls (execLine fs decode l st).1).1).2 = some e := by
      simpa [main_commands, hl] using he
    have hih := ih (execLine fs decode l st).1 hpre2 he2
    simp only [List.cons_append, main_commands, if_neg hl, List.append_eq]
    rw [hih]
    simp [main_commands, hl, List.append_assoc]

/-- C3 witness: a failing decode of the single line `x` yields exactly one
value-error report and the run still ends in shutdown. -/
theorem C3_witness :
    (∀ l ∈ ([] : List String), ¬ l = "")
  ∧ ¬ ("x" : String) = ""
  ∧ (execLine fsOne decodeFail ("x")
       (main_commands fsOne decodeFail [] stEmpty).1).2 = some CmdError.valueError
  ∧ main_commands fsOne decodeFail ([] ++ ("x") :: []) stEmpty =
      ((main_commands fsOne decodeFail []
          (execLine fsOne decodeFail ("x")
            (main_commands fsOne decodeFail [] stEmpty).1).1).1,
       ((main_commands fsOne decodeFail [] stEmpty).2.1
         ++ CmdError.valueError :: (main_commands fsOne decodeFail []
              (execLine fsOne decodeFail ("x")
                (main_commands fsOne decodeFail [] stEmpty).1).1).2.1,
        true)) :=
  ⟨by simp, by decide, rfl,
   C3_errors_contained fsOne decodeFail [] [] stEmpty ("x") CmdError.valueError
     (by simp) (by decide) rfl⟩


/-! Helper lemmas for the image normalization. -/

theorem blend_zero (v : Nat) : blend v 0 = 255 := by
  simp [blend]

theorem load_image_if (j image : PImage)
    (hj : (if image.mode = "P" then image.convertRGBA else image) = j) :
    AddImageAction.load_image image =
      (if strIn j.mode ("RGBA") && bands j.mode == 4 then compositeOnWhite j
       else flattenOnWhite j) := by
  subst hj
  rfl

theorem compositeOnWhite_opaque (image : PImage) :
    ∀ p ∈ (compositeOnWhite image).pixels, p.a = 255 := by
  intro p hp
  simp only [compositeOnWhite, List.mem_map] at hp
  obtain ⟨q, hq, rfl⟩ := hp
  rfl

theorem flattenOnWhite_opaque (image : PImage) :
    ∀ p ∈ (flattenOnWhite image).pixels, p.a = 255 := by
  intro p hp
  simp only [flattenOnWhite, List.mem_map] at hp
  obtain ⟨q, hq, rfl⟩ := hp
  rfl

/-- C6 counterexample: the grayscale-with-alpha image `laImg` carries a
transparency channel and its only pixel is fully transparent, yet after
`load_image` that pixel is not the white background fill: `LA` mode fails
the `mode in 'RGBA' and four bands` test, so its alpha is dropped without
compositing onto white.  This refutes the claim for every image carrying a
transparency channel. -/
theorem C6_counterexample :
    hasTransparencyChannel laImg = true
  ∧ laImg.pixels[0]? = some ⟨10, 10, 10, 0⟩
  ∧ ¬ (AddImageAction.load_image laImg).pixels[0]? = some ⟨255, 255, 255, 255⟩ := by
  decide

/-- C6 amended: every image stored by `load_image` has no transparency
channel: the result is an RGB image and every pixel's alpha is opaque.
For palette images (expanded to RGBA first) and RGBA images — the modes
that pass the `mode in 'RGBA' and four bands` test — fully transparent
pixels are composited onto the opaque white background and equal the white
fill; images in other alpha-carrying modes such as `LA` only have their
alpha discarded, without compositing onto white. -/
theorem C6_no_transparency (image : PImage) :
    (AddImageAction.load_image image).mode = "RGB"
  ∧ (∀ p ∈ (AddImageAction.load_image image).pixels, p.a = 255)
  ∧ ((image.mode = "P" ∨ image.mode = "RGBA") →
      ∀ (i : Nat) (p : Pixel), image.pixels[i]? = some p → p.a = 0 →
        (AddImageAction.load_image image).pixels[i]? = some ⟨255, 255, 255, 255⟩) := by
  have hsh : AddImageAction.load_image image =
      compositeOnWhite (if image.mode = "P" then image.convertRGBA else image)
    ∨ AddImageAction.load_image image =
      flattenOnWhite (if image.mode = "P" then image.convertRGBA else image) := by
    rw [load_image_if (if image.mode = "P" then image.convertRGBA else image) image rfl]
    by_cases hc : (strIn (if image.mode = "P" then image.convertRGBA else image).mode
        ("RGBA") && bands (if image.mode = "P" then image.convertRGBA else image).mode
          == 4) = true
    · rw [if_pos hc]; exact Or.inl rfl
    · rw [if_neg hc]; exact Or.inr rfl
  refine ⟨?_, ?_, ?_⟩
  · rcases hsh with h | h <;> rw [h] <;> rfl
  · rcases hsh with h | h <;> rw [h]
    · exact compositeOnWhite_opaque _
    · exact flattenOnWhite_opaque _
  · intro hm i p hget hpa
    have himg : (if image.mode = "P" then image.convertRGBA else image) =
        { mode := "RGBA", pixels := image.pixels } := by
      rcases hm with hm | hm
      · rw [if_pos hm]; rfl
      · have h2 : ¬ image.mode = "P" := by rw [hm]; decide
        rw [if_neg h2]
        calc image = ⟨image.mode, image.pixels⟩ := rfl
          _ = ⟨"RGBA", image.pixels⟩ := by rw [hm]
    have hload : AddImageAction.load_image image =
        compositeOnWhite { mode := "RGBA", pixels := image.pixels } := by
      rw [load_image_if { mode := "RGBA", pixels := image.pixels } image himg]
      rfl
    rw [hload]
    show (image.pixels.map fun q =>
        (⟨blend q.r q.a, blend q.g q.a, blend q.b q.a, 255⟩ : Pixel))[i]? =
      some ⟨255, 255, 255, 255⟩
    rw [List.getElem?_map, hget]
    simp [hpa, blend_zero]

/-- C6 witness: a palette image whose only pixel is fully transparent is
composited onto white: the stored pixel equals the white fill. -/
theorem C6_witness :
    (pImg.mode = "P" ∨ pImg.mode = "RGBA")
  ∧ pImg.pixels[0]? = some ⟨7, 8, 9, 0⟩
  ∧ (⟨7, 8, 9, 0⟩ : Pixel).a = 0
  ∧ (AddImageAction.load_image pImg).pixels[0]? = some ⟨255, 255, 255, 255⟩ :=
  ⟨Or.inl rfl, rfl, rfl,
   (C6_no_transparency pImg).2.2 (Or.inl rfl) 0 ⟨7, 8, 9, 0⟩ rfl rfl⟩

/-! Helper lemma: the re-enumeration routine written out with the added
and removed id sets expressed as set differences. -/

theorem query_windows_eq (parentIds current : Finset ℕ) :
    query_windows parentIds current =
      ((if ¬ current \ parentIds = ∅ then
          (if ¬ parentIds \ current = ∅ then current ∪ (parentIds \ current) else current)
            \ (current \ parentIds)
        else
          (if ¬ parentIds \ current = ∅ then current ∪ (parentIds \ current) else current)),
       !decide (parentIds \ current = ∅) || !decide (current \ parentIds = ∅)) := by
  have hadded : ((parentIds \ current) ∪ (current \ parentIds)) ∩ parentIds
      = parentIds \ current := by
    ext x
    simp only [Finset.mem_inter, Finset.mem_union, Finset.mem_sdiff]
    tauto
  have hrem : ((parentIds \ current) ∪ (current \ parentIds)) ∩ current
      = current \ parentIds := by
    ext x
    simp only [Finset.mem_inter, Finset.mem_union, Finset.mem_sdiff]
    tauto
  simp only [query_windows, hadded, hrem]

/-- C8: on re-enumeration the parent window ids are diffed against the
tracked ids: after creating windows for newly appeared parents and
destroying windows for vanished ones the tracked set equals the enumerated
parent set, and a repaint is requested precisely when the two sets differ
— an unchanged parent set never triggers a repaint. -/
theorem C8_reenumeration_diff (parentIds current : Finset ℕ) :
    (query_windows parentIds current).1 = parentIds
  ∧ ((query_windows parentIds current).2 = true ↔ ¬ parentIds = current)
  ∧ ((query_windows parentIds current).2 = false ↔ parentIds = current) := by
  by_cases hA : parentIds \ current = ∅ <;> by_cases hR : current \ parentIds = ∅
  · have hpc : parentIds = current :=
      Finset.Subset.antisymm (Finset.sdiff_eq_empty_iff_subset.mp hA)
        (Finset.sdiff_eq_empty_iff_subset.mp hR)
    refine ⟨?_, ?_, ?_⟩ <;> simp only [query_windows_eq]
    · rw [if_neg (not_not_intro hR), if_neg (not_not_intro hA)]
      exact hpc.symm
    · simp [hA, hR, hpc]
    · simp [hA, hR, hpc]
  · have hsub : ∀ y, y ∈ parentIds → y ∈ current :=
      fun y hy => Finset.sdiff_eq_empty_iff_subset.mp hA hy
    have hne : ¬ parentIds = current := by
      intro h
      exact hR (by rw [h]; simp)
    have hws : current \ (current \ parentIds) = parentIds := by
      ext x
      simp only [Finset.mem_sdiff, not_and, not_not]
      constructor
      · rintro ⟨hx, hx2⟩
        exact hx2 hx
      · intro hx
        exact ⟨hsub x hx, fun _ => hx⟩
    refine ⟨?_, ?_, ?_⟩ <;> simp only [query_windows_eq]
    · rw [if_pos hR, if_neg (not_not_intro hA)]
      exact hws
    · simp [hA, hR, hne]
    · simp [hA, hR, hne]
  · have hsub : ∀ y, y ∈ current → y ∈ parentIds :=
      fun y hy => Finset.sdiff_eq_empty_iff_subset.mp hR hy
    have hne : ¬ parentIds = current := by
      intro h
      exact hA (by rw [h]; simp)
    have hws : current ∪ (parentIds \ current) = parentIds := by
      ext x
      simp only [Finset.mem_union, Finset.mem_sdiff]
      constructor
      · rintro (hx | ⟨hx, _⟩)
        · exact hsub x hx
        · exact hx
      · intro hx
        by_cases hc : x ∈ current
        · exact Or.inl hc
        · exact Or.inr ⟨hx, hc⟩
    refine ⟨?_, ?_, ?_⟩ <;> simp only [query_windows_eq]
    · rw [if_neg (not_not_intro hR), if_pos hA]
      exact hws
    · simp [hA, hR, hne]
    · simp [hA, hR, hne]
  · have hne : ¬ parentIds = current := by
      intro h
      exact hA (by rw [h]; simp)
    have hws : (current ∪ (parentIds \ current)) \ (current \ parentIds) = parentIds := by
      ext x
      simp only [Finset.mem_sdiff, Finset.mem_union, not_and, not_not]
      constructor
      · rintro ⟨hx | ⟨hx, _⟩, hx2⟩
        · exact hx2 hx
        · exact hx
      · intro hx
        by_cases hc : x ∈ current
        · exact ⟨Or.inl hc, fun _ => hx⟩
        · exact ⟨Or.inr ⟨hx, hc⟩, fun _ => hx⟩
    refine ⟨?_, ?_, ?_⟩ <;> simp only [query_windows_eq]
    · rw [if_pos hR, if_pos hA]
      exact hws
    · simp [hA, hR, hne]
    · simp [hA, hR, hne]

/-! Helper lemma: what `update_hooks` registers for each watched event. -/

theorem update_hooks_at (pids : Finset String) (st : HookState) (e : String)
    (he : e ∈ events) :
    (update_hooks pids st).hooks e =
      (if pids = ∅ then none else some pids) := by
  simp only [events, List.mem_cons, List.not_mem_nil, or_false] at he
  by_cases hp : pids = ∅
  · simp only [update_hooks, events, List.foldl_cons, List.foldl_nil, if_pos hp,
      unregister_hook]
    rcases he with rfl | rfl | rfl
    · rw [if_neg (by decide), if_neg (by decide), if_pos rfl]
    · rw [if_neg (by decide), if_pos rfl]
    · rw [if_pos rfl]
  · simp only [update_hooks, events, List.foldl_cons, List.foldl_nil, if_neg hp,
      register_hook]
    rcases he with rfl | rfl | rfl
    · rw [if_neg (by decide), if_neg (by decide), if_pos rfl]
    · rw [if_neg (by decide), if_pos rfl]
    · rw [if_pos rfl]

/-- C9: after the shutdown routine of the hook coordinator runs, the
registry file's recorded pid set no longer contains the shutting-down
process's pid; when the remaining set is empty, the hook is unregistered
for every watched event kind, and otherwise the command signalling the
remaining pid set is re-registered for every watched event kind. -/
theorem C9_hook_shutdown (own_pid : String) (st : HookState) :
    own_pid ∉ (remove_hooks own_pid st).fileContent
  ∧ (remove_hooks own_pid st).fileContent = st.fileContent.erase own_pid
  ∧ (st.fileContent.erase own_pid = ∅ →
      ∀ e ∈ events, (remove_hooks own_pid st).hooks e = none)
  ∧ (¬ st.fileContent.erase own_pid = ∅ →
      ∀ e ∈ events, (remove_hooks own_pid st).hooks e =
        some (st.fileContent.erase own_pid)) := by
  refine ⟨Finset.not_mem_erase own_pid st.fileContent, rfl, ?_, ?_⟩
  · intro hp e he
    rw [remove_hooks, update_hooks_at _ st e he, if_pos hp]
  · intro hp e he
    rw [remove_hooks, update_hooks_at _ st e he, if_neg hp]

/-- C9 witness: with pids 1 and 2 recorded, process 1 shutting down leaves
the set containing only pid 2 and re-registers the command signalling it
for the watched event kinds. -/
theorem C9_witness :
    ¬ hookStA.fileContent.erase ("1") = ∅
  ∧ ("session-window-changed") ∈ events
  ∧ (remove_hooks ("1") hookStA).hooks ("session-window-changed") =
      some (hookStA.fileContent.erase ("1")) :=
  ⟨by decide, by decide,
   (C9_hook_shutdown ("1") hookStA).2.2.2 (by decide) ("session-window-changed")
     (by decide)⟩
